import Mathlib

/-!
Verification development for the KNIME workflow dashboard backend
(`src/app.py`).  The file embeds the pure core of the program — the
duration parser `parse_duration`, the event-stream parser
`parse_workflow_data`, the history loader `load_history` and the
merge step of `refresh_data` — as executable Lean definitions, and
proves or refutes the specification's claims about them.

Modelling conventions:
* Python strings are Lean `String`s; all character-level work happens on
  `String.data` (`List Char`) so that every operation reduces inside the
  kernel.
* Slack timestamps (`float(msg['ts'])`) are modelled as integral epoch
  seconds (`Int`); `datetime.fromtimestamp` is modelled in UTC, so the
  calendar date of a timestamp is its floor-division by 86400.
* `pandas` DataFrames are lists of records.  A column that is absent from
  the stored JSON is modelled by an `Option` field being `none` for every
  record; an individual missing value (`NaN`) is a `none` in one record.
* `sorted(...)` / `DataFrame.sort_values` on several columns are stable
  sorts, modelled by `List.insertionSort` (also stable), so the outputs
  agree extensionally.
-/

namespace KnimeDash

/-! ### Python string helpers -/

/-- Python `str.strip()` whitespace class: space, tab, newline, carriage
return, vertical tab, form feed (the ASCII fragment of Python's `\s`). -/
def isPySpace (c : Char) : Bool :=
  c == ' ' || c == '\t' || c == '\n' || c == '\r' || c.toNat == 11 || c.toNat == 12

/-- Drop a maximal run of leading whitespace. -/
def dropWs (cs : List Char) : List Char := cs.dropWhile isPySpace

/-- Python `str.strip()`: remove leading and trailing whitespace. -/
def pyStrip (cs : List Char) : List Char :=
  ((cs.dropWhile isPySpace).reverse.dropWhile isPySpace).reverse

/-- Python `s[:10]` on a string. -/
def take10 (s : String) : String := ⟨s.data.take 10⟩

/-- Whether `pat` is a prefix of `l` (literal character match). -/
def isPrefixL : List Char → List Char → Bool
  | [], _ => true
  | _ :: _, [] => false
  | a :: as, b :: bs => a == b && isPrefixL as bs

/-- Whether `pat` occurs as a contiguous substring of `l`
(Python's `pat in text`). -/
def listContainsSub (pat : List Char) : List Char → Bool
  | [] => pat.isEmpty
  | c :: rest => isPrefixL pat (c :: rest) || listContainsSub pat rest

/-- Python `pat in text` for strings. -/
def containsSub (text pat : String) : Bool := listContainsSub pat.data text.data

/-- Python `text.split('\n')` (always returns at least one piece). -/
def splitLines : List Char → List (List Char)
  | [] => [[]]
  | c :: cs =>
    if c == '\n' then [] :: splitLines cs
    else
      match splitLines cs with
      | l :: ls => (c :: l) :: ls
      | [] => [[c]]

/-- First line of a text (`text.split('\n')[0]`). -/
def firstLine (cs : List Char) : List Char :=
  match splitLines cs with
  | l :: _ => l
  | [] => []

/-- Python `'\n'.join(parts)`. -/
def joinNl : List (List Char) → List Char
  | [] => []
  | [l] => l
  | l :: ls => l ++ '\n' :: joinNl ls

/-! ### `parse_duration` (src/app.py lines 24–37)

`re.search(r'(\d+)\s*mins?', s)` / `re.search(r'(\d+)\s*secs?', s)`:
scan left to right; at a digit, the greedy `\d+` takes the maximal digit
run (a shorter run would have to be followed by a digit, which cannot
start `\s*min`), then `\s*` takes the maximal whitespace run (the literal
starts with a non-space character, so backtracking cannot help), then the
literal must match.  The optional trailing `s` never affects the captured
group. -/

/-- Numeric value of a maximal digit run. -/
def digitsToNat (ds : List Char) : Nat :=
  ds.foldl (fun a c => a * 10 + (c.toNat - 48)) 0

/-- Model of `re.search(r'(\d+)\s*<lit>', s)`: the first captured integer
whose digit run is followed (after optional whitespace) by `lit`. -/
def searchNumBefore (lit : List Char) : List Char → Option Nat
  | [] => none
  | c :: cs =>
    if c.isDigit then
      let ds := List.takeWhile Char.isDigit (c :: cs)
      let rest := List.dropWhile Char.isDigit (c :: cs)
      if isPrefixL lit (dropWs rest) then some (digitsToNat ds)
      else searchNumBefore lit cs
    else searchNumBefore lit cs

/-- `parse_duration`: convert a duration string like `'19 mins, 42 secs'`
to total seconds.  Missing components contribute 0. -/
def parse_duration (duration_str : String) : Int :=
  let mins_match := searchNumBefore "min".data duration_str.data
  let secs_match := searchNumBefore "sec".data duration_str.data
  (match mins_match with
   | some n => (n : Int) * 60
   | none => 0) +
  (match secs_match with
   | some n => (n : Int)
   | none => 0)

/-! ### The two line regexes of `parse_workflow_data`

`re.match(r'^(.+?)\s*:\s*Completed in\s+(.+)$', text)` and
`re.match(r'^(.+?)\s*:\s*(Failure.*)', lines[0])`.

`.` does not match a newline; `$` matches at the end of the string or
just before a final newline; the lazy group `(.+?)` takes the shortest
name for which the rest of the pattern matches; the greedy `\s+` before
`(.+)$` backtracks from the maximal whitespace run. -/

/-- `(.+)$` with `.` not matching newline: succeeds when the maximal
newline-free prefix is nonempty and is followed by nothing or by a single
final newline; returns the captured group. -/
def dotPlusEnd (b : List Char) : Option (List Char) :=
  let run := b.takeWhile (fun c => !(c == '\n'))
  let rest := b.drop run.length
  if run.isEmpty then none
  else if rest.isEmpty || rest == ['\n'] then some run
  else none

/-- Backtracking loop for `\s+(.+)$`: `wrev` is the reversed part of the
whitespace run still assigned to `\s+`; each failure moves its last
character into the candidate group, never below one character. -/
def shrinkWsLoop : List Char → List Char → Option (List Char)
  | [], _ => none
  | c :: wrev, b =>
    match dotPlusEnd b with
    | some g => some g
    | none => if wrev.isEmpty then none else shrinkWsLoop wrev (c :: b)

/-- `\s+(.+)$` applied to `r`: at least one whitespace character, then a
captured group per `dotPlusEnd`. -/
def wsPlusGroup (r : List Char) : Option (List Char) :=
  let w := r.takeWhile isPySpace
  let b := r.drop w.length
  if w.isEmpty then none else shrinkWsLoop w.reverse b

/-- `\s*:\s*Completed in\s+(.+)$` applied to the suffix after the lazy
name group; returns the captured duration text. -/
def completedTail (r : List Char) : Option (List Char) :=
  match dropWs r with
  | ':' :: r2 =>
    let r3 := dropWs r2
    if isPrefixL "Completed in".data r3 then wsPlusGroup (r3.drop 12)
    else none
  | _ => none

/-- Lazy name group for the completion regex: try the shortest name
first; a name character may not be a newline. -/
def completedFrom (acc : List Char) : List Char → Option (List Char × List Char)
  | [] => none
  | c :: rest =>
    if c == '\n' then none
    else
      let acc2 := acc ++ [c]
      match completedTail rest with
      | some g2 => some (acc2, g2)
      | none => completedFrom acc2 rest

/-- Model of `re.match(r'^(.+?)\s*:\s*Completed in\s+(.+)$', text)`:
the raw (unstripped) captured groups. -/
def matchCompleted (text : String) : Option (List Char × List Char) :=
  completedFrom [] text.data

/-- `\s*:\s*(Failure.*)` applied to the suffix after the lazy name group;
the captured group runs from `Failure` to the end of the line. -/
def failureTail (r : List Char) : Option (List Char) :=
  match dropWs r with
  | ':' :: r2 =>
    let r3 := dropWs r2
    if isPrefixL "Failure".data r3 then some r3 else none
  | _ => none

/-- Lazy name group for the failure regex. -/
def failureFrom (acc : List Char) : List Char → Option (List Char × List Char)
  | [] => none
  | c :: rest =>
    if c == '\n' then none
    else
      let acc2 := acc ++ [c]
      match failureTail rest with
      | some g2 => some (acc2, g2)
      | none => failureFrom acc2 rest

/-- Model of `re.match(r'^(.+?)\s*:\s*(Failure.*)', line)` on a single
line (the caller passes `text.split('\n')[0]`). -/
def matchFailure (line : List Char) : Option (List Char × List Char) :=
  failureFrom [] line

/-! ### `parse_workflow_data` (src/app.py lines 98–185) -/

/-- One raw Slack message: its text and its epoch timestamp
(`float(msg['ts'])`, modelled as integral seconds). -/
structure SlackMsg where
  text : String
  ts : Int
deriving DecidableEq

/-- Comparison used by `sorted(messages, key=lambda x: float(x['ts']))`. -/
def msgLe (a b : SlackMsg) : Prop := a.ts ≤ b.ts

instance : DecidableRel msgLe := fun a b => inferInstanceAs (Decidable (a.ts ≤ b.ts))

instance : IsTotal SlackMsg msgLe := ⟨fun a b => Int.le_total a.ts b.ts⟩

instance : IsTrans SlackMsg msgLe := ⟨fun _ _ _ h1 h2 => le_trans h1 h2⟩

/-- `sorted(messages, key=...)` — a stable sort by timestamp. -/
def sortMsgs (messages : List SlackMsg) : List SlackMsg :=
  List.insertionSort msgLe messages

/-- Calendar date (as a day number) of an epoch timestamp:
`datetime.fromtimestamp(ts).date()`, modelled in UTC. -/
def dateOfTs (ts : Int) : Int := ts.fdiv 86400

/-- One parsed workflow execution record, as built by
`parse_workflow_data` (dates still calendar dates, timestamps still
instants). -/
structure WRecord where
  workflow_name : String
  date : Int
  duration_seconds : Int
  timestamp : Int
  status : String
  error_message : String
deriving DecidableEq

/-- The session-start marker text. -/
def startMarker : String := "Starting Nightly Process"

/-- The session-end marker text. -/
def endMarker : String := "Nightly Process Completed"

/-- The single left-to-right pass of `parse_workflow_data` over the
time-sorted messages.  State: `current_date`, `start_time`,
`prev_msg_datetime` (all `None` initially). -/
def parseLoop (current_date : Option Int) (start_time : Option Int)
    (prev : Option Int) : List SlackMsg → List WRecord
  | [] => []
  | m :: rest =>
    if containsSub m.text startMarker then
      parseLoop (some (dateOfTs m.ts)) (some m.ts) (some m.ts) rest
    else if containsSub m.text endMarker then
      match start_time, current_date with
      | some t0, some d =>
        { workflow_name := "TOTAL_NIGHTLY_PROCESS", date := d,
          duration_seconds := m.ts - t0, timestamp := m.ts,
          status := "success", error_message := "" }
          :: parseLoop current_date start_time (some m.ts) rest
      | _, _ => parseLoop current_date start_time (some m.ts) rest
    else
      match matchCompleted m.text, current_date with
      | some (g1, g2), some d =>
        { workflow_name := ⟨pyStrip g1⟩, date := d,
          duration_seconds := parse_duration ⟨pyStrip g2⟩, timestamp := m.ts,
          status := "success", error_message := "" }
          :: parseLoop current_date start_time (some m.ts) rest
      | _, _ =>
        match matchFailure (firstLine m.text.data), current_date with
        | some (g1, g2), some d =>
          { workflow_name := ⟨pyStrip g1⟩, date := d,
            duration_seconds :=
              match prev with
              | some p => m.ts - p
              | none => 0,
            timestamp := m.ts, status := "error",
            error_message :=
              ⟨pyStrip (joinNl (pyStrip g2 :: (splitLines m.text.data).drop 1))⟩ }
            :: parseLoop current_date start_time (some m.ts) rest
        | _, _ =>
          if current_date.isSome then parseLoop current_date start_time (some m.ts) rest
          else parseLoop current_date start_time prev rest

/-- `parse_workflow_data`: sort the messages by timestamp, then run the
stateful pass. -/
def parse_workflow_data (messages : List SlackMsg) : List WRecord :=
  parseLoop none none none (sortMsgs messages)

/-! ### Calendar-date and timestamp rendering

`refresh_data` stringifies the parsed records before merging:
`new_df['date'].astype(str).str[:10]` and
`new_df['timestamp'].astype(str)`.  `str(date)` is `YYYY-MM-DD` and
`str(datetime)` is `YYYY-MM-DD HH:MM:SS`; the day-number → civil-date
conversion below is the standard Gregorian algorithm. -/

/-- Civil date `(year, month, day)` from a day number (days since the
Unix epoch). -/
def civilFromDays (z0 : Int) : Int × Int × Int :=
  let z := z0 + 719468
  let era := z.fdiv 146097
  let doe := z - era * 146097
  let yoe := (doe - doe.fdiv 1460 + doe.fdiv 36524 - doe.fdiv 146096).fdiv 365
  let y := yoe + era * 400
  let doy := doe - (365 * yoe + yoe.fdiv 4 - yoe.fdiv 100)
  let mp := (5 * doy + 2).fdiv 153
  let d := doy - (153 * mp + 2).fdiv 5 + 1
  let m := mp + (if mp < 10 then 3 else -9)
  (y + (if m ≤ 2 then 1 else 0), m, d)

/-- Decimal rendering of an integer. -/
def intStr (n : Int) : String :=
  if n < 0 then ⟨'-' :: (Nat.repr n.natAbs).data⟩ else ⟨(Nat.repr n.natAbs).data⟩

/-- Left-pad with zeros to the given width. -/
def padZeros (s : String) (w : Nat) : String :=
  ⟨List.replicate (w - s.data.length) '0' ++ s.data⟩

/-- `str(datetime.date(...))`: ISO `YYYY-MM-DD` from a day number. -/
def dateToString (day : Int) : String :=
  let c := civilFromDays day
  ⟨(padZeros (intStr c.1) 4).data ++ '-' :: (padZeros (intStr c.2.1) 2).data
    ++ '-' :: (padZeros (intStr c.2.2) 2).data⟩

/-- `str(datetime)`: `YYYY-MM-DD HH:MM:SS` from an epoch timestamp. -/
def tsToString (ts : Int) : String :=
  let day := ts.fdiv 86400
  let sod := ts - 86400 * day
  let h := sod.fdiv 3600
  let mi := (sod - 3600 * h).fdiv 60
  let s := sod - 3600 * h - 60 * mi
  ⟨(dateToString day).data ++ ' ' :: (padZeros (intStr h) 2).data
    ++ ':' :: (padZeros (intStr mi) 2).data ++ ':' :: (padZeros (intStr s) 2).data⟩

/-! ### The history store (src/app.py lines 187–203 and 211–252) -/

/-- One record as it sits in `workflow_history.json`.  `status` and
`error_message` are optional: a legacy store may omit the whole column
(`none` in every record) and an individual record may carry a missing
value (`NaN` when read into the DataFrame). -/
structure StoredRec where
  workflow_name : String
  date : String
  duration_seconds : Int
  timestamp : String
  status : Option String
  error_message : Option String
deriving DecidableEq

/-- One in-memory history record after loading.  `status := none` models
a `NaN` left in the `status` column. -/
structure Rec where
  workflow_name : String
  date : String
  duration_seconds : Int
  timestamp : String
  status : Option String
  error_message : String
deriving DecidableEq

/-- The deduplication key `(workflow_name, date)`. -/
def recKey (r : Rec) : String × String := (r.workflow_name, r.date)

/-- `drop_duplicates(subset=['workflow_name','date'], keep='last')`:
keep a record exactly when no later record shares its key (rows stay in
their original relative order). -/
def dedupKeepLast : List Rec → List Rec
  | [] => []
  | r :: rs =>
    if rs.any (fun x => decide (recKey x = recKey r)) then dedupKeepLast rs
    else r :: dedupKeepLast rs

/-- Comparison used by `sort_values(['date','workflow_name'])`: strings
compare lexicographically by code point, so we compare the underlying
character lists. -/
def recLe (a b : Rec) : Prop :=
  a.date.data < b.date.data ∨
    (a.date.data = b.date.data ∧ a.workflow_name.data ≤ b.workflow_name.data)

instance : DecidableRel recLe := fun a b => by unfold recLe; infer_instance

instance : IsTotal Rec recLe := by
  constructor
  intro a b
  rcases lt_trichotomy a.date.data b.date.data with h | h | h
  · exact Or.inl (Or.inl h)
  · rcases le_total a.workflow_name.data b.workflow_name.data with h2 | h2
    · exact Or.inl (Or.inr ⟨h, h2⟩)
    · exact Or.inr (Or.inr ⟨h.symm, h2⟩)
  · exact Or.inr (Or.inl h)

instance : IsTrans Rec recLe := by
  constructor
  intro a b c hab hbc
  rcases hab with h1 | ⟨h1, h1'⟩
  · rcases hbc with h2 | ⟨h2, _⟩
    · exact Or.inl (lt_trans h1 h2)
    · exact Or.inl (h2 ▸ h1)
  · rcases hbc with h2 | ⟨h2, h2'⟩
    · exact Or.inl (h1 ▸ h2)
    · exact Or.inr ⟨h1.trans h2, le_trans h1' h2'⟩

/-- `merged.sort_values(['date','workflow_name'])` — a stable
lexicographic sort. -/
def sortRecs (l : List Rec) : List Rec := List.insertionSort recLe l

/-- The merge step of `refresh_data` (lines 227–242): dedup only when
both sides are nonempty; the all-empty case is the no-data early return
(modelled as `[]`; `refresh_data` below does not persist in that case). -/
def mergeRecords (history_df new_df : List Rec) : List Rec :=
  if ¬ new_df.isEmpty ∧ ¬ history_df.isEmpty then
    sortRecs (dedupKeepLast (history_df ++ new_df))
  else if ¬ new_df.isEmpty then
    sortRecs new_df
  else if ¬ history_df.isEmpty then
    sortRecs history_df
  else []

/-- The spec's description of the merge: concatenate `existing` then
`incoming`, deduplicate by key keeping the last occurrence, sort
ascending by `(date, workflow_name)`.  Stated from the spec's words, to
be compared with `mergeRecords` above. -/
def merge_spec (existing incoming : List Rec) : List Rec :=
  sortRecs (dedupKeepLast (existing ++ incoming))

/-- `load_history`: `none` models a missing or unparsable store
(`FileNotFoundError` / `ValueError` → empty DataFrame).  A column is
backfilled wholesale only when *no* record carries it; `error_message`
is additionally `fillna('')`-ed per record; dates are truncated to their
first 10 characters; then duplicate keys are dropped keeping the last. -/
def load_history : Option (List StoredRec) → List Rec
  | none => []
  | some rs =>
    let hasStatusCol := rs.any fun r => r.status.isSome
    let hasErrCol := rs.any fun r => r.error_message.isSome
    dedupKeepLast (rs.map fun r =>
      { workflow_name := r.workflow_name
        date := take10 r.date
        duration_seconds := r.duration_seconds
        timestamp := r.timestamp
        status := if hasStatusCol then r.status else some "success"
        error_message := if hasErrCol then r.error_message.getD "" else "" })

/-- Stringification of a freshly parsed record
(`new_df['date'].astype(str).str[:10]`, `new_df['timestamp'].astype(str)`). -/
def recOfW (w : WRecord) : Rec :=
  { workflow_name := w.workflow_name
    date := take10 (dateToString w.date)
    duration_seconds := w.duration_seconds
    timestamp := tsToString w.timestamp
    status := some w.status
    error_message := w.error_message }

/-- Observable outcome of one `/api/refresh` call: the success flag, the
reported number of freshly fetched records, the payload, and what (if
anything) was written to the store. -/
structure RefreshOut where
  success : Bool
  new_count : Nat
  data : List Rec
  savedStore : Option (List Rec)
deriving DecidableEq

/-- `refresh_data` (lines 211–252): parse the fetched messages, load the
history, merge, persist unless both sides are empty.  A failed Slack
fetch surfaces as `messages = []`. -/
def refresh_data (messages : List SlackMsg) (store : Option (List StoredRec)) :
    RefreshOut :=
  let workflow_data := parse_workflow_data messages
  let new_df := workflow_data.map recOfW
  let history_df := load_history store
  if new_df.isEmpty ∧ history_df.isEmpty then
    { success := false, new_count := 0, data := [], savedStore := none }
  else
    let merged := mergeRecords history_df new_df
    { success := true, new_count := new_df.length, data := merged,
      savedStore := some merged }

/-! ### Auxiliary observations used to state the claims -/

/-- Number of `TOTAL_NIGHTLY_PROCESS` records in a parse result. -/
def countTotal (l : List WRecord) : Nat :=
  l.countP (fun r => decide (r.workflow_name = "TOTAL_NIGHTLY_PROCESS"))

/-- A message whose step name (if its text matches the completion or the
failure pattern) is not the reserved name `TOTAL_NIGHTLY_PROCESS`. -/
def stepNameOkB (m : SlackMsg) : Bool :=
  (match matchCompleted m.text with
   | some p => !(decide ((⟨pyStrip p.1⟩ : String) = "TOTAL_NIGHTLY_PROCESS"))
   | none => true) &&
  (match matchFailure (firstLine m.text.data) with
   | some p => !(decide ((⟨pyStrip p.1⟩ : String) = "TOTAL_NIGHTLY_PROCESS"))
   | none => true)

/-- Calendar date of the most recent session-start marker in `l`
(processing left to right, starting from `init`). -/
def lastStartD (init : Option Int) (l : List SlackMsg) : Option Int :=
  l.foldl
    (fun acc m => if containsSub m.text startMarker then some (dateOfTs m.ts) else acc)
    init

/-! ### Concrete inputs used by counterexamples and witnesses -/

/-- The spec's four-event example, at timestamps 0, 60, 120, 180. -/
def cmsgsC1 : List SlackMsg :=
  [⟨"Starting Nightly Process", 0⟩, ⟨"Build: Completed in 2 mins", 60⟩,
   ⟨"Load: Failure: disk full", 120⟩, ⟨"Nightly Process Completed", 180⟩]

/-- One session-start marker followed by two session-end markers. -/
def cmsgsC5 : List SlackMsg :=
  [⟨"Starting Nightly Process", 0⟩, ⟨"Nightly Process Completed", 10⟩,
   ⟨"Nightly Process Completed", 20⟩]

/-- A session starting late on day 0 with a step completing on day 1. -/
def cmsgsC10 : List SlackMsg :=
  [⟨"Starting Nightly Process", 86300⟩, ⟨"A : Completed in 1 sec", 86500⟩]

/-- The record `parse_workflow_data cmsgsC10` emits. -/
def cRec10 : WRecord := ⟨"A", 0, 1, 86500, "success", ""⟩

/-- Two records sharing the key `("W", "2024-01-01")`. -/
def cRecA : Rec := ⟨"W", "2024-01-01", 1, "t1", some "success", ""⟩

/-- Second record with the same key as `cRecA` but different payload. -/
def cRecB : Rec := ⟨"W", "2024-01-01", 2, "t2", some "success", ""⟩

/-- A record with a key distinct from `cRecA`'s. -/
def cRecC : Rec := ⟨"V", "2023-12-31", 3, "t0", some "success", ""⟩

/-- A stored record that carries a `status` value. -/
def cStoredMixedA : StoredRec := ⟨"A", "2024-01-05", 5, "x", some "error", some "boom"⟩

/-- A stored record lacking `status` and `error_message`, in a store
whose `status` column is present because of `cStoredMixedA`. -/
def cStoredMixedB : StoredRec := ⟨"B", "2024-01-06", 6, "y", none, none⟩

/-- A legacy stored record with a timestamp in its `date` field. -/
def cStoredLegacy : StoredRec := ⟨"C", "2024-01-07T08:00:00", 7, "z", none, none⟩

/-- What `load_history` makes of `cStoredLegacy`: backfilled status and
error message, truncated date. -/
def cLoadedLegacy : Rec := ⟨"C", "2024-01-07", 7, "z", some "success", ""⟩

/-! ### Lemmas about deduplication and sorting -/

theorem mem_of_mem_dedupKeepLast {r : Rec} : ∀ {l : List Rec},
    r ∈ dedupKeepLast l → r ∈ l
  | [], h => by simp [dedupKeepLast] at h
  | a :: rs, h => by
    by_cases hc : rs.any (fun x => decide (recKey x = recKey a)) = true
    · simp only [dedupKeepLast, if_pos hc] at h
      exact List.mem_cons_of_mem a (mem_of_mem_dedupKeepLast h)
    · simp only [dedupKeepLast, if_neg hc] at h
      rcases List.mem_cons.mp h with h | h
      · exact h ▸ List.mem_cons_self a rs
      · exact List.mem_cons_of_mem a (mem_of_mem_dedupKeepLast h)

theorem pairwise_key_dedupKeepLast : ∀ l : List Rec,
    (dedupKeepLast l).Pairwise (fun a b => recKey a ≠ recKey b)
  | [] => by simp [dedupKeepLast]
  | a :: rs => by
    by_cases hc : rs.any (fun x => decide (recKey x = recKey a)) = true
    · simpa only [dedupKeepLast, if_pos hc] using pairwise_key_dedupKeepLast rs
    · simp only [dedupKeepLast, if_neg hc]
      refine List.Pairwise.cons ?_ (pairwise_key_dedupKeepLast rs)
      intro b hb hkey
      have hb' : b ∈ rs := mem_of_mem_dedupKeepLast hb
      have : rs.any (fun x => decide (recKey x = recKey a)) = true := by
        refine List.any_eq_true.mpr ⟨b, hb', ?_⟩
        exact decide_eq_true hkey.symm
      exact hc this

theorem dedupKeepLast_append : ∀ A B : List Rec,
    dedupKeepLast (A ++ B) =
      (dedupKeepLast A).filter
        (fun r => !(B.any (fun x => decide (recKey x = recKey r)))) ++ dedupKeepLast B
  | [], B => by simp [dedupKeepLast]
  | a :: A', B => by
    have ih := dedupKeepLast_append A' B
    by_cases hA : A'.any (fun x => decide (recKey x = recKey a)) = true
    · simp [dedupKeepLast, List.any_append, hA, ih]
    · by_cases hB : B.any (fun x => decide (recKey x = recKey a)) = true
      · simp [dedupKeepLast, List.any_append, hA, hB, ih, List.filter_cons]
      · simp [dedupKeepLast, List.any_append, hA, hB, ih, List.filter_cons]

theorem dedupKeepLast_eq_self : ∀ {l : List Rec},
    l.Pairwise (fun a b => recKey a ≠ recKey b) → dedupKeepLast l = l
  | [], _ => rfl
  | a :: rs, h => by
    have hhead := (List.pairwise_cons.mp h).1
    have htail := (List.pairwise_cons.mp h).2
    have hc : ¬ rs.any (fun x => decide (recKey x = recKey a)) = true := by
      intro hc
      rcases List.any_eq_true.mp hc with ⟨x, hx, hkey⟩
      exact hhead x hx (of_decide_eq_true hkey).symm
    simp only [dedupKeepLast, if_neg hc]
    rw [dedupKeepLast_eq_self htail]

theorem dedupKeepLast_ne_nil : ∀ {l : List Rec}, l ≠ [] → dedupKeepLast l ≠ []
  | [], h => absurd rfl h
  | a :: rs, _ => by
    by_cases hc : rs.any (fun x => decide (recKey x = recKey a)) = true
    · simp only [dedupKeepLast, if_pos hc]
      have hrs : rs ≠ [] := by
        intro hnil
        rw [hnil] at hc
        simp at hc
      exact dedupKeepLast_ne_nil hrs
    · simp only [dedupKeepLast, if_neg hc]
      simp

theorem recLe_key_eq {a b : Rec} (hab : recLe a b) (hba : recLe b a) :
    recKey a = recKey b := by
  rcases hab with h1 | ⟨h1, h1'⟩
  · rcases hba with h2 | ⟨h2, _⟩
    · exact absurd h2 (lt_asymm h1)
    · exact absurd (h2 ▸ h1) (lt_irrefl _)
  · rcases hba with h2 | ⟨h2, h2'⟩
    · exact absurd (h1 ▸ h2) (lt_irrefl _)
    · have hd : a.date = b.date := String.ext h1
      have hn : a.workflow_name = b.workflow_name :=
        String.ext (le_antisymm h1' h2')
      simp [recKey, hd, hn]

theorem sorted_key_unique {l₁ l₂ : List Rec} (hp : l₁.Perm l₂)
    (hs₁ : List.Sorted recLe l₁) (hs₂ : List.Sorted recLe l₂)
    (hk₁ : l₁.Pairwise (fun a b => recKey a ≠ recKey b)) : l₁ = l₂ := by
  have hk₂ : l₂.Pairwise (fun a b => recKey a ≠ recKey b) :=
    (hp.pairwise_iff (fun h => h.symm)).mp hk₁
  have anti : ∀ a b : Rec, (recLe a b ∧ recKey a ≠ recKey b) →
      (recLe b a ∧ recKey b ≠ recKey a) → a = b := by
    intro a b ⟨hab, hk⟩ ⟨hba, _⟩
    exact absurd (recLe_key_eq hab hba) hk
  exact @List.eq_of_perm_of_sorted Rec
    (fun a b => recLe a b ∧ recKey a ≠ recKey b) ⟨anti⟩ _ _
    hp (hs₁.and hk₁) (hs₂.and hk₂)

theorem sortRecs_perm (l : List Rec) : (sortRecs l).Perm l :=
  List.perm_insertionSort recLe l

theorem sortRecs_sorted (l : List Rec) : List.Sorted recLe (sortRecs l) :=
  List.sorted_insertionSort recLe l

theorem sortRecs_ne_nil {l : List Rec} (h : l ≠ []) : sortRecs l ≠ [] := by
  intro hnil
  exact h (((sortRecs_perm l).symm.trans (hnil ▸ List.Perm.refl _)).eq_nil)

/-! ### Lemmas about the parse loop -/

theorem lastStartD_cons (init : Option Int) (m : SlackMsg) (l : List SlackMsg) :
    lastStartD init (m :: l) =
      lastStartD (if containsSub m.text startMarker then some (dateOfTs m.ts) else init) l :=
  rfl

theorem parseLoop_cons (cd st pv : Option Int) (m : SlackMsg) (rest : List SlackMsg) :
    parseLoop cd st pv (m :: rest) =
      (if containsSub m.text startMarker then
        parseLoop (some (dateOfTs m.ts)) (some m.ts) (some m.ts) rest
      else if containsSub m.text endMarker then
        match st, cd with
        | some t0, some d =>
          { workflow_name := "TOTAL_NIGHTLY_PROCESS", date := d,
            duration_seconds := m.ts - t0, timestamp := m.ts,
            status := "success", error_message := "" }
            :: parseLoop cd st (some m.ts) rest
        | _, _ => parseLoop cd st (some m.ts) rest
      else
        match matchCompleted m.text, cd with
        | some (g1, g2), some d =>
          { workflow_name := ⟨pyStrip g1⟩, date := d,
            duration_seconds := parse_duration ⟨pyStrip g2⟩, timestamp := m.ts,
            status := "success", error_message := "" }
            :: parseLoop cd st (some m.ts) rest
        | _, _ =>
          match matchFailure (firstLine m.text.data), cd with
          | some (g1, g2), some d =>
            { workflow_name := ⟨pyStrip g1⟩, date := d,
              duration_seconds :=
                match pv with
                | some p => m.ts - p
                | none => 0,
              timestamp := m.ts, status := "error",
              error_message :=
                ⟨pyStrip (joinNl (pyStrip g2 :: (splitLines m.text.data).drop 1))⟩ }
              :: parseLoop cd st (some m.ts) rest
          | _, _ =>
            if cd.isSome then parseLoop cd st (some m.ts) rest
            else parseLoop cd st pv rest) := rfl

theorem countTotal_parseLoop_le : ∀ (l : List SlackMsg) (cd st pv : Option Int),
    (∀ m ∈ l, stepNameOkB m = true) →
    countTotal (parseLoop cd st pv l) ≤
      l.countP (fun m => containsSub m.text endMarker)
  | [], _, _, _, _ => by simp [parseLoop, countTotal]
  | m0 :: rest, cd, st, pv, h => by
    have hm := h m0 (List.mem_cons_self m0 rest)
    have hrest : ∀ x ∈ rest, stepNameOkB x = true :=
      fun x hx => h x (List.mem_cons_of_mem m0 hx)
    have ih : ∀ cd' st' pv' : Option Int,
        countTotal (parseLoop cd' st' pv' rest) ≤
          rest.countP (fun m => containsSub m.text endMarker) :=
      fun cd' st' pv' => countTotal_parseLoop_le rest cd' st' pv' hrest
    have hcount : (m0 :: rest).countP (fun m => containsSub m.text endMarker) =
        rest.countP (fun m => containsSub m.text endMarker) +
          if containsSub m0.text endMarker = true then 1 else 0 :=
      List.countP_cons _ _ _
    have hmono : rest.countP (fun m => containsSub m.text endMarker) ≤
        (m0 :: rest).countP (fun m => containsSub m.text endMarker) := by
      rw [hcount]
      omega
    rw [parseLoop_cons]
    by_cases hstart : containsSub m0.text startMarker = true
    · rw [if_pos hstart]
      exact le_trans (ih _ _ _) hmono
    · rw [if_neg hstart]
      by_cases hend : containsSub m0.text endMarker = true
      · rw [if_pos hend]
        rcases st with _ | t0
        · exact le_trans (ih _ _ _) hmono
        · rcases cd with _ | d
          · exact le_trans (ih _ _ _) hmono
          · show countTotal
                (⟨"TOTAL_NIGHTLY_PROCESS", d, m0.ts - t0, m0.ts, "success", ""⟩
                  :: parseLoop (some d) (some t0) (some m0.ts) rest) ≤ _
            rw [hcount, if_pos hend]
            simp only [countTotal, List.countP_cons]
            have := ih (some d) (some t0) (some m0.ts)
            simp only [countTotal] at this
            simp
            omega
      · rw [if_neg hend]
        rcases hmc : matchCompleted m0.text with _ | ⟨g1, g2⟩
        · rcases hmf : matchFailure (firstLine m0.text.data) with _ | ⟨f1, f2⟩
          · rcases cd with _ | d
            · exact le_trans (ih _ _ _) hmono
            · exact le_trans (ih _ _ _) hmono
          · rcases cd with _ | d
            · exact le_trans (ih _ _ _) hmono
            · have hname : decide ((⟨pyStrip f1⟩ : String) = "TOTAL_NIGHTLY_PROCESS") = false := by
                simp only [stepNameOkB, hmc, hmf, Bool.and_eq_true] at hm
                simpa using hm.2
              show countTotal
                  (⟨⟨pyStrip f1⟩, d,
                     (match pv with
                      | some p => m0.ts - p
                      | none => 0), m0.ts, "error",
                     ⟨pyStrip (joinNl (pyStrip f2 :: (splitLines m0.text.data).drop 1))⟩⟩
                    :: parseLoop (some d) st (some m0.ts) rest) ≤ _
              rw [hcount]
              simp only [countTotal, List.countP_cons, hname]
              have := ih (some d) st (some m0.ts)
              simp only [countTotal] at this
              simp
              omega
        · rcases cd with _ | d
          · rcases hmf : matchFailure (firstLine m0.text.data) with _ | ⟨f1, f2⟩
            · exact le_trans (ih _ _ _) hmono
            · exact le_trans (ih _ _ _) hmono
          · have hname : decide ((⟨pyStrip g1⟩ : String) = "TOTAL_NIGHTLY_PROCESS") = false := by
              simp only [stepNameOkB, hmc, Bool.and_eq_true] at hm
              simpa using hm.1
            show countTotal
                (⟨⟨pyStrip g1⟩, d, parse_duration ⟨pyStrip g2⟩, m0.ts, "success", ""⟩
                  :: parseLoop (some d) st (some m0.ts) rest) ≤ _
            rw [hcount]
            simp only [countTotal, List.countP_cons, hname]
            have := ih (some d) st (some m0.ts)
            simp only [countTotal] at this
            simp
            omega

theorem parseLoop_date_lastStart : ∀ (l : List SlackMsg) (cd st pv : Option Int)
    (r : WRecord), r ∈ parseLoop cd st pv l →
    ∃ p m q, l = p ++ m :: q ∧ r.timestamp = m.ts ∧
      lastStartD cd (p ++ [m]) = some r.date
  | [], cd, st, pv, r, h => by simp [parseLoop] at h
  | m0 :: rest, cd, st, pv, r, h => by
    rw [parseLoop_cons] at h
    by_cases hstart : containsSub m0.text startMarker = true
    · rw [if_pos hstart] at h
      obtain ⟨p, m, q, hsplit, hts, hlast⟩ :=
        parseLoop_date_lastStart rest (some (dateOfTs m0.ts)) (some m0.ts) (some m0.ts) r h
      refine ⟨m0 :: p, m, q, by rw [hsplit, List.cons_append], hts, ?_⟩
      rw [List.cons_append, lastStartD_cons, if_pos hstart]
      exact hlast
    · have tailcase : ∀ pv' : Option Int, r ∈ parseLoop cd st pv' rest →
          ∃ p m q, m0 :: rest = p ++ m :: q ∧ r.timestamp = m.ts ∧
            lastStartD cd (p ++ [m]) = some r.date := by
        intro pv' h'
        obtain ⟨p, m, q, hsplit, hts, hlast⟩ :=
          parseLoop_date_lastStart rest cd st pv' r h'
        refine ⟨m0 :: p, m, q, by rw [hsplit, List.cons_append], hts, ?_⟩
        rw [List.cons_append, lastStartD_cons, if_neg hstart]
        exact hlast
      have selfcase : ∀ d : Int, cd = some d → r.timestamp = m0.ts → r.date = d →
          ∃ p m q, m0 :: rest = p ++ m :: q ∧ r.timestamp = m.ts ∧
            lastStartD cd (p ++ [m]) = some r.date := by
        intro d hcd hts hdate
        refine ⟨[], m0, rest, rfl, hts, ?_⟩
        simp only [List.nil_append, lastStartD, List.foldl_cons, List.foldl_nil,
          if_neg hstart, hcd, hdate]
      rw [if_neg hstart] at h
      by_cases hend : containsSub m0.text endMarker = true
      · rw [if_pos hend] at h
        rcases st with _ | t0 <;> rcases cd with _ | d
        · exact tailcase _ h
        · exact tailcase _ h
        · exact tailcase _ h
        · rcases List.mem_cons.mp h with hr | h'
          · exact selfcase d rfl (by rw [hr]) (by rw [hr])
          · exact tailcase _ h'
      · rw [if_neg hend] at h
        rcases hmc : matchCompleted m0.text with _ | ⟨g1, g2⟩ <;> rw [hmc] at h
        · rcases hmf : matchFailure (firstLine m0.text.data) with _ | ⟨f1, f2⟩ <;>
            rw [hmf] at h
          · rcases cd with _ | d
            · exact tailcase _ h
            · exact tailcase _ h
          · rcases cd with _ | d
            · exact tailcase _ h
            · rcases List.mem_cons.mp h with hr | h'
              · exact selfcase d rfl (by rw [hr]) (by rw [hr])
              · exact tailcase _ h'
        · rcases cd with _ | d
          · rcases hmf : matchFailure (firstLine m0.text.data) with _ | ⟨f1, f2⟩ <;>
              rw [hmf] at h
            · exact tailcase _ h
            · exact tailcase _ h
          · rcases List.mem_cons.mp h with hr | h'
            · exact selfcase d rfl (by rw [hr]) (by rw [hr])
            · exact tailcase _ h'

/-! ### Branch behavior of the merge step -/

theorem mergeRecords_both (E I : List Rec) (hE : E ≠ []) (hI : I ≠ []) :
    mergeRecords E I = sortRecs (dedupKeepLast (E ++ I)) := by
  simp [mergeRecords, List.isEmpty_eq_false.mpr hI, List.isEmpty_eq_false.mpr hE]

theorem mergeRecords_newOnly (I : List Rec) (hI : I ≠ []) :
    mergeRecords [] I = sortRecs I := by
  simp [mergeRecords, List.isEmpty_eq_false.mpr hI]

theorem mergeRecords_histOnly (E : List Rec) (hE : E ≠ []) :
    mergeRecords E [] = sortRecs E := by
  simp [mergeRecords, List.isEmpty_eq_false.mpr hE]

theorem mergeRecords_nil_nil : mergeRecords [] [] = [] := by
  simp [mergeRecords]

/-! ## The claims -/

/-- C8 (confirmed): `parse_duration` satisfies the spec's example
equations `"19 mins, 42 secs" ↦ 1182`, `"45 secs" ↦ 45`, `"" ↦ 0` and
`"no duration here" ↦ 0`. -/
theorem C8_duration_examples :
    parse_duration "19 mins, 42 secs" = 1182 ∧ parse_duration "45 secs" = 45 ∧
      parse_duration "" = 0 ∧ parse_duration "no duration here" = 0 := by
  decide

/-- C9 (confirmed): `parse_duration` is total (the Lean model of "never
raises") and returns a non-negative integer on every input string, and
when neither a minutes component nor a seconds component is found the
result is 0. -/
theorem C9_duration_nonneg (s : String) :
    0 ≤ parse_duration s ∧
      (searchNumBefore "min".data s.data = none →
        searchNumBefore "sec".data s.data = none → parse_duration s = 0) := by
  constructor
  · simp only [parse_duration]
    rcases searchNumBefore "min".data s.data with _ | n
    · rcases searchNumBefore "sec".data s.data with _ | k
      · show (0 : Int) ≤ 0 + 0
        norm_num
      · show (0 : Int) ≤ 0 + (k : Int)
        positivity
    · rcases searchNumBefore "sec".data s.data with _ | k
      · show (0 : Int) ≤ (n : Int) * 60 + 0
        positivity
      · show (0 : Int) ≤ (n : Int) * 60 + (k : Int)
        positivity
  · intro h1 h2
    simp [parse_duration, h1, h2]

/-- Witness for C9 at the concrete input `"abc"`. -/
theorem C9_witness : 0 ≤ parse_duration "abc" ∧ parse_duration "abc" = 0 :=
  ⟨(C9_duration_nonneg "abc").1, (C9_duration_nonneg "abc").2 (by decide) (by decide)⟩

/-- C2 (corrected): the merge concatenates existing-then-incoming,
deduplicates by `(workflow_name, date)` keeping the last occurrence and
sorts by `(date, workflow_name)` — but only when both sides are
nonempty.  When exactly one side is empty, the nonempty side is returned
sorted with no deduplication at all. -/
theorem C2_merge_behavior (existing incoming : List Rec) :
    (existing ≠ [] → incoming ≠ [] →
      mergeRecords existing incoming = merge_spec existing incoming) ∧
    (existing = [] → incoming ≠ [] →
      mergeRecords existing incoming = sortRecs incoming) ∧
    (incoming = [] → existing ≠ [] →
      mergeRecords existing incoming = sortRecs existing) := by
  refine ⟨fun h1 h2 => ?_, fun h1 h2 => ?_, fun h1 h2 => ?_⟩
  · rw [mergeRecords_both existing incoming h1 h2, merge_spec]
  · rw [h1, mergeRecords_newOnly incoming h2]
  · rw [h1, mergeRecords_histOnly existing h2]

/-- Counterexample for C2 as stated: with an empty existing set and two
incoming records sharing a key, the code skips deduplication while the
spec's merge formula collapses them. -/
theorem C2_counterexample :
    mergeRecords [] [cRecA, cRecB] ≠ merge_spec [] [cRecA, cRecB] := by
  decide

/-- Witness for C2's amended statement on concrete nonempty inputs. -/
theorem C2_witness :
    mergeRecords [cRecC] [cRecA] = merge_spec [cRecC] [cRecA] :=
  (C2_merge_behavior [cRecC] [cRecA]).1 (by decide) (by decide)

/-- C4 (corrected): the merge result carries at most one record per
`(workflow_name, date)` key whenever both existing and incoming are
nonempty; when one side is empty, internal duplicates of the other side
survive (and are persisted). -/
theorem C4_merge_key_unique (existing incoming : List Rec)
    (hE : existing ≠ []) (hI : incoming ≠ []) :
    (mergeRecords existing incoming).Pairwise
      (fun a b => recKey a ≠ recKey b) := by
  rw [mergeRecords_both existing incoming hE hI]
  exact ((sortRecs_perm _).pairwise_iff (fun h => h.symm)).mpr
    (pairwise_key_dedupKeepLast _)

/-- Counterexample for C4 as stated: merging duplicate-keyed incoming
records into an empty history keeps both records with the same key. -/
theorem C4_counterexample :
    ¬ (mergeRecords [] [cRecA, cRecB]).Pairwise
        (fun a b => recKey a ≠ recKey b) := by
  decide

/-- Witness for C4's amended statement on concrete nonempty inputs. -/
theorem C4_witness :
    (mergeRecords [cRecC] [cRecA, cRecB]).Pairwise
      (fun a b => recKey a ≠ recKey b) :=
  C4_merge_key_unique [cRecC] [cRecA, cRecB] (by decide) (by decide)

/-- For any list with pairwise-distinct keys that is a permutation of
`dedupKeepLast (E ++ I)`-like material: merging `I` back into an
already-merged, sorted, key-unique list `M` reproduces `M`, provided the
records of `M` agree with `dedupKeepLast (E ++ I)` as a multiset. -/
theorem sortRecs_dedup_absorb (E I : List Rec)
    (M : List Rec) (hMdef : M = sortRecs (dedupKeepLast (E ++ I))) :
    sortRecs (dedupKeepLast (M ++ I)) = M := by
  have hMperm : M.Perm (dedupKeepLast (E ++ I)) := hMdef ▸ sortRecs_perm _
  have hDK : (dedupKeepLast (E ++ I)).Pairwise (fun a b => recKey a ≠ recKey b) :=
    pairwise_key_dedupKeepLast _
  have hMK : M.Pairwise (fun a b => recKey a ≠ recKey b) :=
    (hMperm.pairwise_iff (fun h => h.symm)).mpr hDK
  have hfilterI : (dedupKeepLast I).filter
      (fun r => !(I.any (fun x => decide (recKey x = recKey r)))) = [] := by
    rw [List.filter_eq_nil_iff]
    intro a ha
    have haI : a ∈ I := mem_of_mem_dedupKeepLast ha
    simp only [Bool.not_eq_true', List.any_eq_false, not_forall]
    refine ⟨a, haI, ?_⟩
    simp
  have hfilter_keep : ∀ X : List Rec,
      (X.filter (fun r => !(I.any (fun x => decide (recKey x = recKey r))))).filter
          (fun r => !(I.any (fun x => decide (recKey x = recKey r)))) =
        X.filter (fun r => !(I.any (fun x => decide (recKey x = recKey r)))) := by
    intro X
    rw [List.filter_filter]
    simp [Bool.and_self]
  have hDsplit : dedupKeepLast (E ++ I) =
      (dedupKeepLast E).filter
        (fun r => !(I.any (fun x => decide (recKey x = recKey r)))) ++
        dedupKeepLast I :=
    dedupKeepLast_append E I
  have hMIsplit : dedupKeepLast (M ++ I) =
      M.filter (fun r => !(I.any (fun x => decide (recKey x = recKey r)))) ++
        dedupKeepLast I := by
    rw [dedupKeepLast_append, dedupKeepLast_eq_self hMK]
  have hMfilter : (M.filter
      (fun r => !(I.any (fun x => decide (recKey x = recKey r))))).Perm
        ((dedupKeepLast E).filter
          (fun r => !(I.any (fun x => decide (recKey x = recKey r))))) := by
    have hpf := hMperm.filter
      (fun r => !(I.any (fun x => decide (recKey x = recKey r))))
    rw [hDsplit, List.filter_append, hfilter_keep, hfilterI, List.append_nil] at hpf
    exact hpf
  have hbig : (dedupKeepLast (M ++ I)).Perm M := by
    rw [hMIsplit]
    have step1 := hMfilter.append_right (dedupKeepLast I)
    have step2 : ((dedupKeepLast E).filter
        (fun r => !(I.any (fun x => decide (recKey x = recKey r)))) ++
          dedupKeepLast I).Perm M := by
      rw [← hDsplit]
      exact hMperm.symm
    exact step1.trans step2
  apply sorted_key_unique
  · exact (sortRecs_perm _).trans hbig
  · exact sortRecs_sorted _
  · rw [hMdef]
    exact sortRecs_sorted _
  · exact ((sortRecs_perm _).pairwise_iff (fun h => h.symm)).mpr
      (pairwise_key_dedupKeepLast _)

/-- C3 (corrected): remerging the same incoming batch is idempotent
whenever the existing history is nonempty, or the incoming batch has no
two records with the same `(workflow_name, date)` key.  When the history
is empty and incoming carries duplicate keys, the first merge skips
deduplication and the second collapses the duplicates, so idempotence
fails. -/
theorem C3_merge_idempotent (existing incoming : List Rec)
    (h : existing ≠ [] ∨
      incoming.Pairwise (fun a b => recKey a ≠ recKey b)) :
    mergeRecords (mergeRecords existing incoming) incoming =
      mergeRecords existing incoming := by
  by_cases hE : existing = []
  · rcases h with h | hIkeys
    · exact absurd hE h
    · by_cases hI : incoming = []
      · rw [hE, hI, mergeRecords_nil_nil, mergeRecords_nil_nil]
      · rw [hE, mergeRecords_newOnly incoming hI]
        have hSne : sortRecs incoming ≠ [] := sortRecs_ne_nil hI
        rw [mergeRecords_both _ incoming hSne hI]
        have hSK : (sortRecs incoming).Pairwise
            (fun a b => recKey a ≠ recKey b) :=
          ((sortRecs_perm incoming).pairwise_iff (fun h => h.symm)).mpr hIkeys
        have hfilterS : (sortRecs incoming).filter
            (fun r => !(incoming.any (fun x => decide (recKey x = recKey r)))) = [] := by
          rw [List.filter_eq_nil_iff]
          intro a ha
          have haI : a ∈ incoming := (sortRecs_perm incoming).mem_iff.mp ha
          simp only [Bool.not_eq_true', List.any_eq_false, not_forall]
          refine ⟨a, haI, ?_⟩
          simp
        rw [dedupKeepLast_append, dedupKeepLast_eq_self hSK, hfilterS,
          List.nil_append, dedupKeepLast_eq_self hIkeys]
  · by_cases hI : incoming = []
    · rw [hI, mergeRecords_histOnly existing hE,
        mergeRecords_histOnly _ (sortRecs_ne_nil hE)]
      exact List.Sorted.insertionSort_eq (sortRecs_sorted existing)
    · have hEI : existing ++ incoming ≠ [] := by
        intro hnil
        exact hE (List.append_eq_nil.mp hnil).1
      have hMne : sortRecs (dedupKeepLast (existing ++ incoming)) ≠ [] :=
        sortRecs_ne_nil (dedupKeepLast_ne_nil hEI)
      rw [mergeRecords_both existing incoming hE hI,
        mergeRecords_both _ incoming hMne hI]
      exact sortRecs_dedup_absorb existing incoming _ rfl

/-- Counterexample for C3 as stated: with an empty existing set and a
duplicate-keyed incoming batch, the second merge collapses what the
first one kept. -/
theorem C3_counterexample :
    mergeRecords (mergeRecords [] [cRecA, cRecB]) [cRecA, cRecB] ≠
      mergeRecords [] [cRecA, cRecB] := by
  decide

/-- Witness for C3's amended statement on concrete inputs. -/
theorem C3_witness :
    mergeRecords (mergeRecords [cRecC] [cRecA, cRecB]) [cRecA, cRecB] =
      mergeRecords [cRecC] [cRecA, cRecB] :=
  C3_merge_idempotent [cRecC] [cRecA, cRecB] (Or.inl (by decide))

/-- C6 (corrected): a missing or unparsable store loads as the empty
set; `status` is backfilled to `"success"` only when the whole column is
absent (no record carries it); `error_message` is backfilled per record;
every loaded date is the 10-character truncation of a stored date.  A
record lacking `status` in a store where another record has it keeps a
missing value instead of `"success"`. -/
theorem C6_load_history_behavior (rs : List StoredRec) :
    load_history none = [] ∧
    ((∀ r ∈ rs, r.status = none) →
      ∀ r' ∈ load_history (some rs), r'.status = some "success") ∧
    (∀ r' ∈ load_history (some rs),
      ((∃ r ∈ rs, r.error_message = some r'.error_message) ∨
        r'.error_message = "") ∧
      (∃ r ∈ rs, r'.date = take10 r.date)) := by
  refine ⟨rfl, ?_, ?_⟩
  · intro hall r' hr'
    have hcol : rs.any (fun r => r.status.isSome) = false := by
      rw [List.any_eq_false]
      intro x hx
      simp [hall x hx]
    simp only [load_history, hcol] at hr'
    have hmap := mem_of_mem_dedupKeepLast hr'
    obtain ⟨r, _, hfr⟩ := List.mem_map.mp hmap
    rw [← hfr]
    simp
  · intro r' hr'
    simp only [load_history] at hr'
    have hmap := mem_of_mem_dedupKeepLast hr'
    obtain ⟨r, hrmem, hfr⟩ := List.mem_map.mp hmap
    constructor
    · by_cases hcol : rs.any (fun r => r.error_message.isSome) = true
      · rcases herr : r.error_message with _ | msg
        · right
          rw [← hfr]
          simp [hcol, herr]
        · left
          refine ⟨r, hrmem, ?_⟩
          rw [← hfr]
          simp [hcol, herr]
      · right
        have hcolF : rs.any (fun r => r.error_message.isSome) = false := by
          simpa using hcol
        rw [← hfr]
        simp [hcolF]
    · refine ⟨r, hrmem, ?_⟩
      rw [← hfr]

/-- Counterexample for C6 as stated: in a store where one record carries
`status` and another lacks it, the lacking record's status stays missing
(`none`, i.e. `NaN`) instead of being backfilled to `"success"`. -/
theorem C6_counterexample :
    (load_history (some [cStoredMixedA, cStoredMixedB])).map (fun r => r.status) =
        [some "error", none] ∧
      (none : Option String) ≠ some "success" := by
  decide

/-- Witness for C6's amended statement: a fully legacy store is
backfilled. -/
theorem C6_witness :
    cLoadedLegacy ∈ load_history (some [cStoredLegacy]) ∧
      cLoadedLegacy.status = some "success" :=
  ⟨by decide,
   (C6_load_history_behavior [cStoredLegacy]).2.1 (by decide) cLoadedLegacy
     (by decide)⟩

/-- C7 (confirmed): when parsing yields no new records (in particular
when the feed fetch fails and returns nothing), refresh reports a
no-data outcome and writes nothing if the history is also empty, and
otherwise reports success with zero new records, serving and persisting
the sorted existing history only. -/
theorem C7_refresh_no_new (messages : List SlackMsg)
    (store : Option (List StoredRec))
    (hnew : parse_workflow_data messages = []) :
    (load_history store = [] →
      refresh_data messages store =
        { success := false, new_count := 0, data := [], savedStore := none }) ∧
    (load_history store ≠ [] →
      refresh_data messages store =
        { success := true, new_count := 0,
          data := sortRecs (load_history store),
          savedStore := some (sortRecs (load_history store)) }) := by
  constructor
  · intro hh
    simp [refresh_data, hnew, hh]
  · intro hh
    simp only [refresh_data, hnew, List.map_nil]
    rw [if_neg (by simp [hh])]
    rw [mergeRecords_histOnly _ hh]
    simp

/-- Witness for C7 at concrete inputs: an empty fetch against an empty
store reports no-data without writing; against a nonempty store it
reports success with zero new records. -/
theorem C7_witness :
    refresh_data [] none =
        { success := false, new_count := 0, data := [], savedStore := none } ∧
      refresh_data [] (some [cStoredMixedA]) =
        { success := true, new_count := 0,
          data := sortRecs (load_history (some [cStoredMixedA])),
          savedStore := some (sortRecs (load_history (some [cStoredMixedA]))) } :=
  ⟨(C7_refresh_no_new [] none rfl).1 rfl,
   (C7_refresh_no_new [] (some [cStoredMixedA]) rfl).2 (by decide)⟩

/-- C5 (corrected): provided no step line's extracted name collides with
the reserved `TOTAL_NIGHTLY_PROCESS`, the parser emits at most one
`TOTAL_NIGHTLY_PROCESS` record per session-end-marker event — not per
session: a session containing several end markers yields one record per
end marker. -/
theorem C5_total_per_end_marker (messages : List SlackMsg)
    (h : ∀ m ∈ messages, stepNameOkB m = true) :
    countTotal (parse_workflow_data messages) ≤
      messages.countP (fun m => containsSub m.text endMarker) := by
  have hsorted : ∀ m ∈ sortMsgs messages, stepNameOkB m = true := by
    intro m hm
    exact h m ((List.perm_insertionSort msgLe messages).mem_iff.mp hm)
  have hb := countTotal_parseLoop_le (sortMsgs messages) none none none hsorted
  rw [parse_workflow_data]
  exact le_trans hb
    (le_of_eq ((List.perm_insertionSort msgLe messages).countP_eq _))

/-- Counterexample for C5 as stated: one session (a single start marker)
containing two end markers yields two `TOTAL_NIGHTLY_PROCESS` records. -/
theorem C5_counterexample :
    countTotal (parse_workflow_data cmsgsC5) = 2 ∧
      cmsgsC5.countP (fun m => containsSub m.text startMarker) = 1 := by
  decide

/-- Witness for C5's amended statement on the same concrete input. -/
theorem C5_witness :
    countTotal (parse_workflow_data cmsgsC5) ≤
      cmsgsC5.countP (fun m => containsSub m.text endMarker) :=
  C5_total_per_end_marker cmsgsC5 (by decide)

/-- C10 (confirmed): every emitted record is dated with the calendar
date of the most recent session-start marker at or before the record's
own event in the parser's processing order (`lastStartD` over the sorted
prefix ending at the emitting message), not with the date of the
record's own timestamp; concretely, a step completing just after
midnight in a session begun the previous day carries day 0 while its own
timestamp falls on day 1. -/
theorem C10_record_date_session_start :
    (∀ (messages : List SlackMsg) (r : WRecord),
      r ∈ parse_workflow_data messages →
      ∃ p m q, sortMsgs messages = p ++ m :: q ∧ r.timestamp = m.ts ∧
        lastStartD none (p ++ [m]) = some r.date) ∧
    ((parse_workflow_data cmsgsC10).map
        (fun r => (r.date, dateOfTs r.timestamp)) = [(0, 1)]) := by
  constructor
  · intro messages r hr
    exact parseLoop_date_lastStart (sortMsgs messages) none none none r hr
  · decide

/-- Witness for C10 at a concrete input and record. -/
theorem C10_witness :
    ∃ p m q, sortMsgs cmsgsC10 = p ++ m :: q ∧ cRec10.timestamp = m.ts ∧
      lastStartD none (p ++ [m]) = some cRec10.date :=
  C10_record_date_session_start.1 cmsgsC10 cRec10 (by decide)

/-- C1 (corrected): on the spec's four-event session the parser emits
exactly the three expected records, except that the `Load` failure
record's `error_message` is the whole captured regex group
`"Failure: disk full"` — the group starts at the word `Failure`, so the
message keeps the `"Failure: "` prefix rather than being `"disk full"`. -/
theorem C1_session_example (t0 t1 t2 t3 : Int)
    (h01 : t0 < t1) (h12 : t1 < t2) (h23 : t2 < t3) :
    parse_workflow_data
      [⟨"Starting Nightly Process", t0⟩, ⟨"Build: Completed in 2 mins", t1⟩,
       ⟨"Load: Failure: disk full", t2⟩, ⟨"Nightly Process Completed", t3⟩] =
      [⟨"Build", dateOfTs t0, 120, t1, "success", ""⟩,
       ⟨"Load", dateOfTs t0, t2 - t1, t2, "error", "Failure: disk full"⟩,
       ⟨"TOTAL_NIGHTLY_PROCESS", dateOfTs t0, t3 - t0, t3, "success", ""⟩] := by
  have hs : List.Sorted msgLe
      [⟨"Starting Nightly Process", t0⟩, ⟨"Build: Completed in 2 mins", t1⟩,
       ⟨"Load: Failure: disk full", t2⟩, ⟨"Nightly Process Completed", t3⟩] := by
    simp [List.sorted_cons, msgLe]
    omega
  have hsort : sortMsgs
      [⟨"Starting Nightly Process", t0⟩, ⟨"Build: Completed in 2 mins", t1⟩,
       ⟨"Load: Failure: disk full", t2⟩, ⟨"Nightly Process Completed", t3⟩] =
      [⟨"Starting Nightly Process", t0⟩, ⟨"Build: Completed in 2 mins", t1⟩,
       ⟨"Load: Failure: disk full", t2⟩, ⟨"Nightly Process Completed", t3⟩] :=
    List.Sorted.insertionSort_eq hs
  rw [parse_workflow_data, hsort]
  rfl

/-- Counterexample for C1 as stated: at timestamps 0, 60, 120, 180 no
emitted record has `error_message = "disk full"` (the failure record's
message is `"Failure: disk full"`). -/
theorem C1_counterexample :
    (parse_workflow_data cmsgsC1).length = 3 ∧
      (parse_workflow_data cmsgsC1).all
        (fun r => !(decide (r.error_message = "disk full"))) = true := by
  decide

/-- Witness for C1's amended statement at timestamps 0, 60, 120, 180. -/
theorem C1_witness :
    (0 : Int) < 60 ∧ (60 : Int) < 120 ∧ (120 : Int) < 180 ∧
    parse_workflow_data cmsgsC1 =
      [⟨"Build", dateOfTs 0, 120, 60, "success", ""⟩,
       ⟨"Load", dateOfTs 0, 60, 120, "error", "Failure: disk full"⟩,
       ⟨"TOTAL_NIGHTLY_PROCESS", dateOfTs 0, 180, 180, "success", ""⟩] :=
  ⟨by decide, by decide, by decide, by
    have h := C1_session_example 0 60 120 180 (by decide) (by decide) (by decide)
    simpa [cmsgsC1] using h⟩

end KnimeDash
